import Mathlib

/-!
Verification of the record/collection core of a contact-book program
(`base.py`): validated fields (`Name`, `Phone`, `Birthday`), `Record`
with its phone-list operations and birthday countdown, and
`AddressBook` with uniqueness-enforcing insertion and chunked
iteration.  Python objects are embedded shallowly: fields become
structures, exceptions become `Except`/`Option` error components, and
mutation becomes explicit state passing (each mutating method returns
the new state together with an optional error message; on an error the
returned state is the state at the moment the exception was raised).
-/

namespace ABook

/-- An ASCII decimal digit: code point between 48 (`0`) and 57
(`9`). -/
def isAsciiDigit (c : Char) : Bool :=
  48 ≤ c.toNat && c.toNat ≤ 57

/-- The Python regex class `\d` (and the digit test used by `int`) matches
Unicode decimal digits (category Nd), not only ASCII `0-9`.  We model
the character classification on the ranges exercised in this
development: the ASCII digits and, as a representative non-ASCII Nd
block, the Arabic-Indic digits U+0660 to U+0669.  Other Nd blocks
behave like the Arabic-Indic one and are omitted. -/
def isPyDigit (c : Char) : Bool :=
  isAsciiDigit c || (0x660 ≤ c.toNat && c.toNat ≤ 0x669)

/-- Numeric value of a decimal digit accepted by `isPyDigit`
(what `int` assigns to the character). -/
def pyDigitVal (c : Char) : Nat :=
  if isAsciiDigit c then c.toNat - 48 else c.toNat - 0x660

/-- Value of `int(token)` on a `strptime` token: a string of decimal
digits, possibly with a leading space in the space-padded day form
(`int` ignores surrounding whitespace; the space character contributes
zero here, see `natOfDigits_space`). -/
def natOfDigits (l : List Char) : Nat :=
  l.foldl (fun a c => 10 * a + pyDigitVal c) 0

/-- The text matched by the search for `\d+` in `s`: the first maximal run
of decimal digits occurring in `s` (empty when there is no digit). -/
def firstDigitRun : List Char → List Char
  | [] => []
  | c :: rest =>
      if isPyDigit c then c :: rest.takeWhile isPyDigit
      else firstDigitRun rest

/-- Class `Phone(Field)` of `base.py`.  Because of Python
name mangling the object carries two private attributes: `value` is
`_Phone__value` (read and written by the `value` property), while
`fieldValue` is `_Field__value`, set once by `Field.__init__` and read
by `Field.__str__`. -/
structure Phone where
  value : String
  fieldValue : String
  deriving DecidableEq, Repr

/-- The body of the `Phone.value` setter: search for `\d+` in `phone`,
then reject unless `len(phone) == 10` and the digit run covers the
whole string; `ValueError` becomes `Except.error`. -/
def phoneCheck (phone : String) : Except String String :=
  let numbers := firstDigitRun phone.data
  if phone.length ≠ 10 ∨ numbers.length ≠ phone.length then
    .error "Phone number must have only digits with length 10"
  else .ok phone

/-- Constructor `Phone.__init__`: run the `value` setter, then `Field.__init__`
stores the same value into `_Field__value`. -/
def Phone.make (phone : String) : Except String Phone :=
  match phoneCheck phone with
  | .error e => .error e
  | .ok v => .ok ⟨v, v⟩

/-- Assignment `p.value = phone` on an existing object (used by
`Record.edit_phone`): the setter validates and overwrites
`_Phone__value` only; `_Field__value` is untouched. -/
def Phone.setValue (p : Phone) (phone : String) : Except String Phone :=
  match phoneCheck phone with
  | .error e => .error e
  | .ok v => .ok { p with value := v }

/-- Rendering `str(p)` for a `Phone`, i.e. `Field.__str__`: renders
`_Field__value`. -/
def Phone.str (p : Phone) : String := p.fieldValue

/-- Class `Name(Field)`: same two-attribute layout as
`Phone`; the `value` setter performs no validation. -/
structure Name where
  value : String
  fieldValue : String
  deriving DecidableEq, Repr

/-- Constructor `Name.__init__`: the setter stores the string unconditionally,
then `Field.__init__` stores it again as `_Field__value`.  Never
fails. -/
def Name.make (clientName : String) : Name := ⟨clientName, clientName⟩

/-- A `datetime.date`: a (year, month, day) triple. -/
structure PyDate where
  year : Nat
  month : Nat
  day : Nat
  deriving DecidableEq, Repr

/-- Gregorian leap-year rule used by `datetime`. -/
def isLeap (y : Nat) : Bool :=
  (y % 4 == 0 && y % 100 != 0) || y % 400 == 0

/-- Number of days in month `m` of year `y` (as `datetime` validates
it); `0` for an out-of-range month. -/
def daysInMonth (y m : Nat) : Nat :=
  match m with
  | 1 => 31 | 2 => if isLeap y then 29 else 28 | 3 => 31
  | 4 => 30 | 5 => 31 | 6 => 30 | 7 => 31 | 8 => 31
  | 9 => 30 | 10 => 31 | 11 => 30 | 12 => 31
  | _ => 0

/-- Days in year `y` strictly before month `m`. -/
def daysBeforeMonth (y : Nat) : Nat → Nat
  | 0 => 0
  | 1 => 0
  | m + 1 => daysBeforeMonth y m + daysInMonth y m

/-- Ordinal `date.toordinal()`: day number with 0001-01-01 as day 1. -/
def toOrdinal (d : PyDate) : Nat :=
  365 * (d.year - 1) + (d.year - 1) / 4 - (d.year - 1) / 100
    + (d.year - 1) / 400 + daysBeforeMonth d.year d.month + d.day

/-- Validity condition of the `datetime` constructor for
`datetime(y, m, d)`: `MINYEAR ≤ y ≤ MAXYEAR`, a real month and a real
day of that month. -/
def dateOk (y m d : Nat) : Prop :=
  1 ≤ y ∧ y ≤ 9999 ∧ 1 ≤ m ∧ m ≤ 12 ∧ 1 ≤ d ∧ d ≤ daysInMonth y m

instance (y m d : Nat) : Decidable (dateOk y m d) := by
  unfold dateOk; infer_instance

/-- The `%d` token of `strptime`: the regex alternation
`(3[0-1]|[1-2]\d|0[1-9]|[1-9]| [1-9])` followed by the rest of the
pattern — the last alternative is a literal space (code point 32)
followed by a nonzero digit, the space-padded day form, and `int` on
the captured text ignores the leading space.  Because the next pattern
character is the literal `-`, the first character of each alternative
class is never a hyphen, and the alternatives that consume two
characters start with a space or digit while the one-character
alternative starts with a digit, regex backtracking reduces to: take
two characters when a two-digit alternative matches, else one
character when `[1-9]` matches, else two characters when the
space-padded alternative matches (its leading space is disjoint from
the digit starts, so the order against `[1-9]` is immaterial).
Returns the parsed value and the remaining input.  The literal
character classes are compared by code point: `3` is 51, `0`/`1`/`2`
are 48/49/50, `[1-9]` is the range 49 to 57. -/
def dayTok : List Char → Option (Nat × List Char)
  | c1 :: c2 :: rest =>
      if (c1.toNat = 51 ∧ (c2.toNat = 48 ∨ c2.toNat = 49))
          ∨ ((c1.toNat = 49 ∨ c1.toNat = 50) ∧ isPyDigit c2 = true)
          ∨ (c1.toNat = 48 ∧ 49 ≤ c2.toNat ∧ c2.toNat ≤ 57) then
        some (10 * pyDigitVal c1 + pyDigitVal c2, rest)
      else if 49 ≤ c1.toNat ∧ c1.toNat ≤ 57 then some (pyDigitVal c1, c2 :: rest)
      else if c1.toNat = 32 ∧ 49 ≤ c2.toNat ∧ c2.toNat ≤ 57 then
        some (pyDigitVal c2, rest)
      else none
  | [c1] =>
      if 49 ≤ c1.toNat ∧ c1.toNat ≤ 57 then some (pyDigitVal c1, []) else none
  | [] => none

/-- The `%m` token of `strptime`: `(1[0-2]|0[1-9]|[1-9])`, same
backtracking argument and code-point encoding as for `dayTok`. -/
def monthTok : List Char → Option (Nat × List Char)
  | c1 :: c2 :: rest =>
      if (c1.toNat = 49 ∧ (c2.toNat = 48 ∨ c2.toNat = 49 ∨ c2.toNat = 50))
          ∨ (c1.toNat = 48 ∧ 49 ≤ c2.toNat ∧ c2.toNat ≤ 57) then
        some (10 * pyDigitVal c1 + pyDigitVal c2, rest)
      else if 49 ≤ c1.toNat ∧ c1.toNat ≤ 57 then some (pyDigitVal c1, c2 :: rest)
      else none
  | [c1] =>
      if 49 ≤ c1.toNat ∧ c1.toNat ≤ 57 then some (pyDigitVal c1, []) else none
  | [] => none

/-- The `%Y` token of `strptime`: exactly four digit-class
characters, `(\d\d\d\d)`. -/
def yearTok : List Char → Option (Nat × List Char)
  | c1 :: c2 :: c3 :: c4 :: rest =>
      if isPyDigit c1 ∧ isPyDigit c2 ∧ isPyDigit c3 ∧ isPyDigit c4 then
        some (natOfDigits [c1, c2, c3, c4], rest)
      else none
  | _ => none

/-- The literal `-` of the format string: consume exactly one hyphen
(code point 45). -/
def hyphenTok : List Char → Option (List Char)
  | c :: rest => if c = '-' then some rest else none
  | [] => none

/-- Parse `datetime.strptime(s, "%d-%m-%Y")` up to extraction of the
day/month/year numbers: day token, literal hyphen, month token,
literal hyphen, year token, end of input (`strptime` rejects
unconverted trailing data). -/
def strptimeDMY (l : List Char) : Option (Nat × Nat × Nat) :=
  (dayTok l).bind fun dr =>
    (hyphenTok dr.2).bind fun r1 =>
      (monthTok r1).bind fun mr =>
        (hyphenTok mr.2).bind fun r2 =>
          (yearTok r2).bind fun yr =>
            if yr.2 = [] then some (dr.1, mr.1, yr.1) else none

/-- Parse `datetime.strptime(birthday, "%d-%m-%Y").date()`: token match
plus the calendar validation of the `datetime` constructor. -/
def parseBirthdayStr (s : String) : Except String PyDate :=
  match strptimeDMY s.data with
  | some (d, m, y) =>
      if dateOk y m d then .ok ⟨y, m, d⟩
      else .error "Client birthday or date format is incorrect"
  | none => .error "Client birthday or date format is incorrect"

/-- Class `Birthday(Field)`: `value` is `_Birthday__value`
(an optional `date`), `fieldValue` is `_Field__value`. -/
structure Birthday where
  value : Option PyDate
  fieldValue : Option PyDate
  deriving DecidableEq, Repr

/-- Constructor `Birthday.__init__(birthday)`: `None` is stored as-is; a string is
parsed with `strptime`, any failure re-raised as `ValueError`; on
success `Field.__init__` duplicates the stored value. -/
def Birthday.make (birthday : Option String) : Except String Birthday :=
  match birthday with
  | none => .ok ⟨none, none⟩
  | some s =>
      match parseBirthdayStr s with
      | .error e => .error e
      | .ok d => .ok ⟨some d, some d⟩

/-- Class `Record`: a client name, an ordered phone list and an optional
birthday. -/
structure Record where
  name : Name
  phones : List Phone
  birthday : Birthday
  deriving DecidableEq, Repr

/-- Constructor `Record.__init__(name, birthday=None)`: builds the `Name` (never
fails) and the `Birthday` (may raise), starting with an empty phone
list. -/
def Record.make (name : String) (birthday : Option String) :
    Except String Record :=
  match Birthday.make birthday with
  | .error e => .error e
  | .ok b => .ok ⟨Name.make name, [], b⟩

/-- The `enumerate` loop of `Record.get_phone_by_number`: scan the
phone list with a running index, returning the first phone whose
`value` equals `phoneNum` together with its index. -/
def findPhoneIdx (phoneNum : String) : List Phone → Nat → Option (Phone × Nat)
  | [], _ => none
  | p :: ps, i =>
      if p.value = phoneNum then some (p, i) else findPhoneIdx phoneNum ps (i + 1)

/-- Method `Record.get_phone_by_number`: first phone (with its index) whose
`value` equals `phone_num`, else `(None, None)`. -/
def Record.getPhoneByNumber (r : Record) (phoneNum : String) :
    Option (Phone × Nat) :=
  findPhoneIdx phoneNum r.phones 0

/-- Method `Record.add_phone`: construct a `Phone` (validating), then append;
a validation error propagates before the list is touched. -/
def Record.addPhone (r : Record) (phoneNum : String) :
    Record × Option String :=
  match Phone.make phoneNum with
  | .error e => (r, some e)
  | .ok p => ({ r with phones := r.phones ++ [p] }, none)

/-- Method `Record.edit_phone`: look `old_phone` up; if absent raise; if
found, assign `new_phone` through the `value` setter of the object at
that index (validation failure propagates with the list untouched). -/
def Record.editPhone (r : Record) (oldPhone newPhone : String) :
    Record × Option String :=
  match r.getPhoneByNumber oldPhone with
  | some (p, idx) =>
      match p.setValue newPhone with
      | .error e => (r, some e)
      | .ok p2 => ({ r with phones := r.phones.set idx p2 }, none)
  | none => (r, some "Phone with the number was not found for the user")

/-- Method `Record.remove_phone`: look the number up and `pop` the index.
When the lookup fails the index is `None` and `list.pop(None)` raises
`TypeError` before any mutation. -/
def Record.removePhone (r : Record) (phoneNum : String) :
    Record × Option String :=
  match r.getPhoneByNumber phoneNum with
  | some (_, idx) => ({ r with phones := r.phones.eraseIdx idx }, none)
  | none =>
      (r, some "TypeError: NoneType object cannot be interpreted as an integer")

/-- Method `Record.find_phone`: the phone component of
`get_phone_by_number`. -/
def Record.findPhone (r : Record) (phoneNum : String) : Option Phone :=
  (r.getPhoneByNumber phoneNum).map Prod.fst

/-- Method `Record.add_birthday`: build a fresh `Birthday` object (validation
failure propagates) and rebind the `birthday` attribute to it. -/
def Record.addBirthday (r : Record) (birthday : String) :
    Record × Option String :=
  match Birthday.make (some birthday) with
  | .error e => (r, some e)
  | .ok b => ({ r with birthday := b }, none)

/-- Method `Record.days_to_birthday`.  Here `datetime.today()` is the
clock of the caller, embedded as the current date plus the elapsed
seconds of the day (`0 ≤ secs < 86400`).  The next-birthday year is
bumped exactly when the (month, day) of today is strictly after the
birth (month, day);
`datetime(next_year, month, day)` is midnight of that date and must be
a constructible date; the subtraction is an exact `timedelta` whose
`days` attribute floor-divides the total seconds by 86400. -/
def Record.daysToBirthday (r : Record) (today : PyDate) (secs : Nat) :
    Except String Int :=
  match r.birthday.value with
  | none => .error "There is no information about the client birthday"
  | some b =>
      let nextYear :=
        if today.month > b.month ∨ (today.month = b.month ∧ today.day > b.day)
        then today.year + 1 else today.year
      if dateOk nextYear b.month b.day then
        .ok ((((toOrdinal ⟨nextYear, b.month, b.day⟩ : Int)
            - (toOrdinal today : Int)) * 86400 - (secs : Int)).fdiv 86400)
      else .error "ValueError: day is out of range for month"

/-- Note `str(record)` is irrelevant to the claims; the rendering used by
the bot reads `p.value` for each phone.  `AddressBook` extends
`UserDict`; its `data` dict is embedded as an insertion-ordered
association list with unique keys. -/
abbrev AddressBook := List (String × Record)

/-- Membership test `key in self.data`. -/
def AddressBook.hasKey (book : AddressBook) (name : String) : Bool :=
  (book.find? (fun kv => kv.1 == name)).isSome

/-- Method `AddressBook.add_record`: insert under `record.name.value` when the
key is absent (Python dict insertion appends the new key in iteration
order), otherwise raise `RecordAlreadyExistsException` leaving the
dict untouched. -/
def AddressBook.addRecord (book : AddressBook) (record : Record) :
    AddressBook × Option String :=
  if book.hasKey record.name.value then
    (book, some "Record with the name already exists in the address book dictionary")
  else (book ++ [(record.name.value, record)], none)

/-- Method `AddressBook.find`: `self.data.get(name)`. -/
def AddressBook.findRec (book : AddressBook) (name : String) : Option Record :=
  (book.find? (fun kv => kv.1 == name)).map Prod.snd

/-- Values `list(self.data.values())`: the records in insertion order. -/
def AddressBook.values (book : AddressBook) : List Record :=
  book.map Prod.snd

/-- Python slice `l[start:stop]` for `0 ≤ start ≤ stop`. -/
def pySlice (l : List Record) (start stop : Nat) : List Record :=
  (l.drop start).take (stop - start)

/-- Method `AddressBook.iterator(record_num=None)`, fully materialised: step
is 1 when `record_num` is `None` or `0` (both falsy), else
`record_num`; then `for i in range(0, len(book_vals), step)` yields
`book_vals[i:i+step]`.  `range` with a non-positive step over a
non-negative span is empty; for a positive step `s` it has
`(len + s - 1) / s` elements `0, s, 2s, ...`. -/
def AddressBook.iterator (book : AddressBook) (recordNum : Option Int) :
    List (List Record) :=
  let bookVals := book.values
  let step : Int := match recordNum with
    | none => 1
    | some n => if n = 0 then 1 else n
  if 0 < step then
    let s := step.toNat
    (List.range' 0 ((bookVals.length + s - 1) / s) s).map
      (fun i => pySlice bookVals i (i + s))
  else []

/-- Reference chunking used to reason about `iterator`: split a list
into successive groups of `s` elements (`s ≥ 1`; the last group may be
shorter). -/
def chunkList (s : Nat) : List Record → List (List Record)
  | [] => []
  | x :: xs => (x :: xs.take (s - 1)) :: chunkList s (xs.drop (s - 1))
termination_by l => l.length
decreasing_by simp [List.length_drop]; omega

/-- Stated from the spec sentence of claim C1: a phone value must have
exactly ten characters, all of them ASCII decimal digits. -/
def specPhoneOkAscii (s : String) : Prop :=
  s.length = 10 ∧ (∀ c ∈ s.data, isAsciiDigit c = true)

/-- Day token of the amended birthday format: one or two ASCII digits
denoting a value between 1 and 31 (zero-padding optional), or a
space-padded day — a space followed by one nonzero ASCII digit — as
admitted by the last alternative of the `%d` pattern. -/
def dayStrOk (l : List Char) : Prop :=
  (∃ c, l = [c] ∧ isAsciiDigit c = true ∧ 1 ≤ pyDigitVal c) ∨
  (∃ c1 c2, l = [c1, c2] ∧ isAsciiDigit c1 = true ∧ isAsciiDigit c2 = true
    ∧ 1 ≤ 10 * pyDigitVal c1 + pyDigitVal c2
    ∧ 10 * pyDigitVal c1 + pyDigitVal c2 ≤ 31) ∨
  (∃ c, l = [' ', c] ∧ isAsciiDigit c = true ∧ 1 ≤ pyDigitVal c)

/-- Month token of the amended birthday format: one or two ASCII
digits denoting a value between 1 and 12 (zero-padding optional). -/
def monthStrOk (l : List Char) : Prop :=
  (∃ c, l = [c] ∧ isAsciiDigit c = true ∧ 1 ≤ pyDigitVal c) ∨
  (∃ c1 c2, l = [c1, c2] ∧ isAsciiDigit c1 = true ∧ isAsciiDigit c2 = true
    ∧ 1 ≤ 10 * pyDigitVal c1 + pyDigitVal c2
    ∧ 10 * pyDigitVal c1 + pyDigitVal c2 ≤ 12)

/-- Stated from the amended form of claim C7, for ASCII input: a
day token (one or two digits, or a space-padded single digit), a
hyphen, a month token (one or two digits), a hyphen, exactly four
ASCII digits of year, nothing after; and the three numbers denote a
real calendar date (as validated by the `datetime` constructor). -/
def specBirthdayAscii (s : String) : Prop :=
  ∃ dl ml yl : List Char,
    s.data = dl ++ '-' :: (ml ++ '-' :: yl)
    ∧ dayStrOk dl ∧ monthStrOk ml
    ∧ yl.length = 4 ∧ (∀ c ∈ yl, isAsciiDigit c = true)
    ∧ dateOk (natOfDigits yl) (natOfDigits ml) (natOfDigits dl)

/-- Stated from the spec sentences of claim C7: fixed `DD-MM-YYYY`
format with a two-digit day, two-digit month and four-digit year,
hyphen-separated, denoting a real calendar date. -/
def specBirthdayStrict (s : String) : Prop :=
  ∃ dl ml yl : List Char,
    s.data = dl ++ '-' :: (ml ++ '-' :: yl)
    ∧ dl.length = 2 ∧ ml.length = 2 ∧ yl.length = 4
    ∧ (∀ c ∈ dl ++ ml ++ yl, isAsciiDigit c = true)
    ∧ dateOk (natOfDigits yl) (natOfDigits ml) (natOfDigits dl)

/-- Fixture: a record for client `Bob` holding the single validated
phone `1111111111` (the reachable state after
`Record("Bob").add_phone("1111111111")`). -/
def bobRecord : Record :=
  ⟨Name.make "Bob", [⟨"1111111111", "1111111111"⟩], ⟨none, none⟩⟩

/-- Fixture: like `bobRecord` but with the same phone number added
twice (the source enforces no in-record uniqueness). -/
def bobDupRecord : Record :=
  ⟨Name.make "Bob",
    [⟨"1111111111", "1111111111"⟩, ⟨"1111111111", "1111111111"⟩],
    ⟨none, none⟩⟩

/-- Fixture: a record whose birthday is the 15th of March 1990. -/
def birthdayRecord : Record :=
  ⟨Name.make "Kate", [], ⟨some ⟨1990, 3, 15⟩, some ⟨1990, 3, 15⟩⟩⟩

/-- C10: the `Name` setter performs no validation, so constructing a
`Name` — and hence the name part of a `Record` — succeeds for every
string, the empty string included, and the resulting record can be
inserted into an address book under that (possibly empty) key. -/
theorem name_accepts_any_string (s : String) :
    Name.make s = ⟨s, s⟩
    ∧ Record.make s none = .ok ⟨Name.make s, [], ⟨none, none⟩⟩
    ∧ AddressBook.addRecord [] ⟨Name.make s, [], ⟨none, none⟩⟩
        = ([(s, ⟨Name.make s, [], ⟨none, none⟩⟩)], none) :=
  ⟨rfl, rfl, rfl⟩

/-- C9: each mutating operation (`add_phone`, `edit_phone`,
`add_birthday`, `AddressBook.add_record`) is atomic with respect to
failure: whenever it reports an error, the returned state is exactly
the state before the call. -/
theorem mutators_atomic (r : Record) (num old new b : String)
    (book : AddressBook) (rec2 : Record) :
    ((r.addPhone num).2.isSome = true → (r.addPhone num).1 = r)
    ∧ ((r.editPhone old new).2.isSome = true → (r.editPhone old new).1 = r)
    ∧ ((r.addBirthday b).2.isSome = true → (r.addBirthday b).1 = r)
    ∧ ((book.addRecord rec2).2.isSome = true → (book.addRecord rec2).1 = book) := by
  refine ⟨?_, ?_, ?_, ?_⟩
  · unfold Record.addPhone
    cases Phone.make num <;> simp
  · unfold Record.editPhone
    cases r.getPhoneByNumber old with
    | none => simp
    | some pi =>
        obtain ⟨p, idx⟩ := pi
        cases h : p.setValue new <;> simp [h]
  · unfold Record.addBirthday
    cases Birthday.make (some b) <;> simp
  · unfold AddressBook.addRecord
    by_cases h : book.hasKey rec2.name.value = true <;> simp [h]

/-- Witness for `mutators_atomic` at concrete failing calls: an
invalid phone string on add and edit, an invalid birthday string, and
a duplicate-key insertion. -/
theorem mutators_atomic_witness :
    (bobRecord.addPhone "123").1 = bobRecord
    ∧ (bobRecord.editPhone "1111111111" "123").1 = bobRecord
    ∧ (bobRecord.addBirthday "31-02-2021").1 = bobRecord
    ∧ (AddressBook.addRecord [("Bob", bobRecord)] bobRecord).1
        = [("Bob", bobRecord)] :=
  ⟨(mutators_atomic bobRecord "123" "" "" "" [] bobRecord).1 (by decide),
   (mutators_atomic bobRecord "" "1111111111" "123" "" [] bobRecord).2.1
     (by decide),
   (mutators_atomic bobRecord "" "" "" "31-02-2021" [] bobRecord).2.2.1
     (by decide),
   (mutators_atomic bobRecord "" "" "" "" [("Bob", bobRecord)]
     bobRecord).2.2.2 (by decide)⟩

/-- C4 (code bug): `days_to_birthday` subtracts the full
`datetime.today()` — date and time of day — from midnight of the next
birthday, and `timedelta.days` floors.  With today = 2024-03-10 at
noon (43200 s) and a birthday on 15 March it returns 4, not the 5 the
spec states; only at exactly midnight does it return 5.  Likewise from
2024-03-20 it returns 359 at noon while the day count to 2025-03-15 is
360. -/
theorem daysToBirthday_floors_clock :
    birthdayRecord.daysToBirthday ⟨2024, 3, 10⟩ 43200 = .ok 4
    ∧ birthdayRecord.daysToBirthday ⟨2024, 3, 10⟩ 0 = .ok 5
    ∧ birthdayRecord.daysToBirthday ⟨2024, 3, 20⟩ 43200 = .ok 359
    ∧ birthdayRecord.daysToBirthday ⟨2024, 3, 20⟩ 0 = .ok 360 :=
  ⟨rfl, rfl, rfl, rfl⟩

/-- C6 (code bug): Python name mangling splits each field into the
subclass attribute read by the `value` property and the base-class
attribute read by `Field.__str__`.  `edit_phone` assigns through the
`value` property only, so after a successful edit the rendered string
is the old value, not the currently stored one. -/
theorem field_str_stale_after_edit :
    (bobRecord.editPhone "1111111111" "2222222222").2 = none
    ∧ (bobRecord.editPhone "1111111111" "2222222222").1.phones.map Phone.value
        = ["2222222222"]
    ∧ (bobRecord.editPhone "1111111111" "2222222222").1.phones.map Phone.str
        = ["1111111111"] := by
  refine ⟨by decide, by decide, by decide⟩

/-- C5 counterexample: removing a number that is not stored is not a
no-op — the lookup yields no index, `list.pop(None)` raises
`TypeError`, and the caller does get a failure signal. -/
theorem removePhone_absent_fails :
    ((bobRecord.removePhone "0000000000").2).isSome = true := by decide

/-- C5 amended: when the number is absent, `remove_phone` raises (the
positional `pop` is called with a `None` index) and the record —
in particular its phone list — is left unchanged. -/
theorem removePhone_absent_raises (r : Record) (num : String)
    (h : r.getPhoneByNumber num = none) :
    (r.removePhone num).1 = r ∧ ((r.removePhone num).2).isSome = true := by
  unfold Record.removePhone
  rw [h]
  exact ⟨rfl, rfl⟩

/-- Witness for `removePhone_absent_raises`: `Bob` holds only
`1111111111`, and removing `0000000000` leaves him unchanged while
signalling the failure. -/
theorem removePhone_absent_raises_witness :
    (bobRecord.removePhone "0000000000").1 = bobRecord
    ∧ ((bobRecord.removePhone "0000000000").2).isSome = true :=
  removePhone_absent_raises bobRecord "0000000000" (by decide)

/-- C2: adding a record whose name key is already present fails with
`RecordAlreadyExistsException` and leaves the book unchanged — the
original record is still the one stored under that key. -/
theorem addRecord_duplicate_rejected (book : AddressBook) (a : String)
    (orig r2 : Record) (h1 : book.findRec a = some orig)
    (h2 : r2.name.value = a) :
    (book.addRecord r2).1 = book
    ∧ ((book.addRecord r2).2).isSome = true
    ∧ (book.addRecord r2).1.findRec a = some orig := by
  have hk : book.hasKey r2.name.value = true := by
    unfold AddressBook.findRec at h1
    unfold AddressBook.hasKey
    rw [h2]
    rcases Option.map_eq_some'.mp h1 with ⟨kv, hkv, -⟩
    rw [hkv]; rfl
  unfold AddressBook.addRecord
  rw [hk]
  exact ⟨rfl, rfl, by simpa using h1⟩

/-- Witness for `addRecord_duplicate_rejected`: a book already holding
`Bob`, and a second record named `Bob`. -/
theorem addRecord_duplicate_rejected_witness :
    (AddressBook.addRecord [("Bob", bobRecord)] bobDupRecord).1
        = [("Bob", bobRecord)]
    ∧ ((AddressBook.addRecord [("Bob", bobRecord)] bobDupRecord).2).isSome = true
    ∧ (AddressBook.addRecord [("Bob", bobRecord)] bobDupRecord).1.findRec "Bob"
        = some bobRecord :=
  addRecord_duplicate_rejected [("Bob", bobRecord)] "Bob" bobRecord
    bobDupRecord (by decide) (by decide)

theorem firstDigitRun_length_le (l : List Char) :
    (firstDigitRun l).length ≤ l.length := by
  induction l with
  | nil => simp [firstDigitRun]
  | cons c rest ih =>
      unfold firstDigitRun
      cases h : isPyDigit c with
      | true =>
          simp only [h, if_true, List.length_cons]
          have := (@List.takeWhile_sublist _ rest isPyDigit).length_le
          exact Nat.succ_le_succ this
      | false =>
          simp only [h, Bool.false_eq_true, if_false]
          exact Nat.le_succ_of_le ih

theorem firstDigitRun_full_iff (l : List Char) :
    (firstDigitRun l).length = l.length ↔ ∀ c ∈ l, isPyDigit c = true := by
  induction l with
  | nil => simp [firstDigitRun]
  | cons c rest ih =>
      unfold firstDigitRun
      cases h : isPyDigit c with
      | true =>
          simp only [h, if_true, List.length_cons, Nat.succ_inj, List.mem_cons]
          constructor
          · intro hlen x hx
            have hTW : rest.takeWhile isPyDigit = rest := by
              have hs := @List.takeWhile_sublist _ rest isPyDigit
              exact hs.eq_of_length hlen
            rcases hx with hx | hx
            · exact hx ▸ h
            · exact List.takeWhile_eq_self_iff.mp hTW x hx
          · intro hall
            have hTW : rest.takeWhile isPyDigit = rest :=
              List.takeWhile_eq_self_iff.mpr (fun x hx => hall x (Or.inr hx))
            rw [hTW]
      | false =>
          simp only [h, Bool.false_eq_true, if_false]
          constructor
          · intro hlen
            have hle := firstDigitRun_length_le rest
            simp only [List.length_cons] at hlen
            omega
          · intro hall
            exact absurd (hall c (List.mem_cons_self c rest)) (by simp [h])

/-- C1 amended: constructing a `Phone` with value `s` succeeds exactly
when `s` has ten characters and every character is a decimal digit in
the sense of the Python regex class `\d` — Unicode decimal digits, not only ASCII
ones; on success both the stored and the rendered value equal `s`. -/
theorem phone_validation (s : String) :
    ((Phone.make s).isOk = true
        ↔ s.length = 10 ∧ ∀ c ∈ s.data, isPyDigit c = true)
    ∧ (∀ p, Phone.make s = .ok p → p.value = s ∧ p.str = s) := by
  have hlen : s.length = s.data.length := rfl
  have key : (Phone.make s).isOk = true
      ↔ ¬(s.length ≠ 10 ∨ (firstDigitRun s.data).length ≠ s.length) := by
    unfold Phone.make phoneCheck
    by_cases hc : s.length ≠ 10 ∨ (firstDigitRun s.data).length ≠ s.length
    · simp [hc, Except.isOk, Except.toBool]
    · simp [hc, Except.isOk, Except.toBool]
  constructor
  · rw [key]
    push_neg
    constructor
    · rintro ⟨h10, hrun⟩
      exact ⟨h10, (firstDigitRun_full_iff s.data).mp (by rw [← hlen, hrun])⟩
    · rintro ⟨h10, hall⟩
      exact ⟨h10, by rw [hlen]; exact (firstDigitRun_full_iff s.data).mpr hall⟩
  · unfold Phone.make phoneCheck
    by_cases hc : s.length ≠ 10 ∨ (firstDigitRun s.data).length ≠ s.length
    · simp [hc]
    · simp only [hc, if_false]
      rintro p hp
      cases hp
      exact ⟨rfl, rfl⟩

/-- Witness for `phone_validation` at the all-ASCII number
`1234567890`. -/
theorem phone_validation_witness :
    (Phone.make "1234567890").isOk = true
    ∧ (⟨"1234567890", "1234567890"⟩ : Phone).value = "1234567890" :=
  ⟨(phone_validation "1234567890").1.mpr (by decide),
   ((phone_validation "1234567890").2 ⟨"1234567890", "1234567890"⟩
     (by rfl)).1⟩

/-- C1 counterexample: the string of ten Arabic-Indic digits (U+0660)
is accepted by the `Phone` setter — `re.search` with `\d` matches
Unicode digits — although none of its characters is an ASCII decimal
digit, contradicting the claim that acceptance requires ten ASCII
digits. -/
theorem phone_unicode_digits_accepted :
    (Phone.make "٠٠٠٠٠٠٠٠٠٠").isOk = true
    ∧ ¬ specPhoneOkAscii "٠٠٠٠٠٠٠٠٠٠" := by
  constructor
  · decide
  · rintro ⟨-, hall⟩
    have := hall '٠' (by decide)
    simp [isAsciiDigit] at this

theorem phoneCheck_ok_eq {s v : String} (h : phoneCheck s = .ok v) : v = s := by
  unfold phoneCheck at h
  by_cases hc : s.length ≠ 10 ∨ (firstDigitRun s.data).length ≠ s.length
  · rw [if_pos hc] at h; cases h
  · rw [if_neg hc] at h; cases h; rfl

theorem findPhoneIdx_some_spec (num : String) :
    ∀ (ps : List Phone) (i : Nat) (p : Phone) (j : Nat),
      findPhoneIdx num ps i = some (p, j) →
      i ≤ j ∧ ps[j - i]? = some p ∧ p.value = num
        ∧ ∀ k < j - i, ∀ q, ps[k]? = some q → q.value ≠ num := by
  intro ps
  induction ps with
  | nil => intro i p j h; cases h
  | cons x rest ih =>
      intro i p j h
      unfold findPhoneIdx at h
      by_cases hx : x.value = num
      · rw [if_pos hx] at h
        cases h
        simp [hx]
      · rw [if_neg hx] at h
        obtain ⟨hij, hget, hval, hbefore⟩ := ih (i + 1) p j h
        have hij' : i ≤ j := Nat.le_of_succ_le hij
        refine ⟨hij', ?_, hval, ?_⟩
        · have : j - i = (j - (i + 1)) + 1 := by omega
          rw [this, List.getElem?_cons_succ]
          exact hget
        · intro k hk q hq
          cases k with
          | zero =>
              rw [List.getElem?_cons_zero] at hq
              cases hq
              exact hx
          | succ k' =>
              rw [List.getElem?_cons_succ] at hq
              exact hbefore k' (by omega) q hq

theorem findPhoneIdx_none_iff (num : String) :
    ∀ (ps : List Phone) (i : Nat),
      findPhoneIdx num ps i = none ↔ ∀ p ∈ ps, p.value ≠ num := by
  intro ps
  induction ps with
  | nil => intro i; simp [findPhoneIdx]
  | cons x rest ih =>
      intro i
      unfold findPhoneIdx
      by_cases hx : x.value = num
      · rw [if_pos hx]
        simp [hx]
      · rw [if_neg hx]
        rw [ih (i + 1)]
        constructor
        · intro h p hp
          rcases List.mem_cons.mp hp with hp | hp
          · exact hp ▸ hx
          · exact h p hp
        · intro h p hp
          exact h p (List.mem_cons_of_mem x hp)

theorem countP_value_one_unique (old : String) :
    ∀ (ps : List Phone) (idx : Nat) (p : Phone),
      ps.countP (fun x => x.value == old) = 1 → ps[idx]? = some p →
      p.value = old →
      ∀ k, k ≠ idx → ∀ q, ps[k]? = some q → q.value ≠ old := by
  intro ps
  induction ps with
  | nil => intro idx p _ hget; cases hget
  | cons x rest ih =>
      intro idx p hcount hget hval k hk q hq
      rw [List.countP_cons] at hcount
      by_cases hx : x.value = old
      · have hx' : (x.value == old) = true := by simpa using hx
        simp only [hx', if_pos] at hcount
        have hrest : rest.countP (fun y => y.value == old) = 0 := by omega
        have hnone : ∀ a ∈ rest, a.value ≠ old := by
          intro a ha
          have := List.countP_eq_zero.mp hrest a ha
          simpa using this
        cases idx with
        | zero =>
            cases k with
            | zero => exact absurd rfl hk
            | succ k' =>
                rw [List.getElem?_cons_succ] at hq
                exact hnone q (List.getElem?_mem hq)
        | succ idx' =>
            rw [List.getElem?_cons_succ] at hget
            exact absurd hval (hnone p (List.getElem?_mem hget))
      · have hx' : (x.value == old) = false := by simpa using hx
        simp only [hx', Bool.false_eq_true, if_false, Nat.add_zero] at hcount
        have hrest : rest.countP (fun y => y.value == old) = 1 := by omega
        cases idx with
        | zero =>
            rw [List.getElem?_cons_zero] at hget
            cases hget
            exact absurd hval hx
        | succ idx' =>
            rw [List.getElem?_cons_succ] at hget
            cases k with
            | zero =>
                rw [List.getElem?_cons_zero] at hq
                cases hq
                exact hx
            | succ k' =>
                rw [List.getElem?_cons_succ] at hq
                exact ih idx' p hrest hget hval k' (by omega) q hq

/-- C8 counterexample: the source enforces no uniqueness of phone
numbers inside a record, and `edit_phone` rewrites only the first
match.  With the same number stored twice, `edit_phone(old, new)`
succeeds, yet `find_phone(old)` still finds the second copy instead of
returning an absent result. -/
theorem editPhone_duplicate_old_found :
    (bobDupRecord.editPhone "1111111111" "2222222222").2 = none
    ∧ ((bobDupRecord.editPhone "1111111111"
        "2222222222").1.findPhone "1111111111").isSome = true :=
  ⟨rfl, rfl⟩

/-- C8 amended: provided the record stores exactly one phone with
value `old` and `new ≠ old`, a successful `edit_phone(old, new)`
replaces that phone in place (same index, same list length), after
which `find_phone(new)` returns a phone whose value is `new` and
`find_phone(old)` returns an absent result. -/
theorem editPhone_roundtrip (r : Record) (old new : String)
    (hone : r.phones.countP (fun p => p.value == old) = 1)
    (hne : new ≠ old)
    (hok : (r.editPhone old new).2 = none) :
    ∃ p idx,
      r.getPhoneByNumber old = some (p, idx)
      ∧ (r.editPhone old new).1.phones
          = r.phones.set idx { p with value := new }
      ∧ (r.editPhone old new).1.phones.length = r.phones.length
      ∧ (∃ q, (r.editPhone old new).1.findPhone new = some q
          ∧ q.value = new)
      ∧ (r.editPhone old new).1.findPhone old = none := by
  cases hfind : r.getPhoneByNumber old with
  | none =>
      have heq : r.editPhone old new
          = (r, some "Phone with the number was not found for the user") := by
        simp [Record.editPhone, hfind]
      rw [heq] at hok
      cases hok
  | some pj =>
      obtain ⟨p, idx⟩ := pj
      cases hset : p.setValue new with
      | error e =>
          have heq : r.editPhone old new = (r, some e) := by
            simp [Record.editPhone, hfind, hset]
          rw [heq] at hok
          cases hok
      | ok p2 =>
          have hp2 : p2 = { p with value := new } := by
            unfold Phone.setValue at hset
            cases hc : phoneCheck new with
            | error e => rw [hc] at hset; cases hset
            | ok v =>
                have hv : v = new := phoneCheck_ok_eq hc
                rw [hc] at hset
                cases hset
                rw [hv]
          have heq : r.editPhone old new
              = ({ r with phones := r.phones.set idx p2 }, none) := by
            simp [Record.editPhone, hfind, hset]
          have hspec := findPhoneIdx_some_spec old r.phones 0 p idx hfind
          obtain ⟨-, hget0, hvalp, -⟩ := hspec
          simp only [Nat.sub_zero] at hget0
          have hlt : idx < r.phones.length := by
            by_contra hge
            rw [List.getElem?_eq_none (by omega)] at hget0
            cases hget0
          refine ⟨p, idx, rfl, ?_, ?_, ?_, ?_⟩
          · rw [heq, ← hp2]
          · rw [heq]
            exact List.length_set r.phones idx p2
          · rw [heq]
            show ∃ q, (findPhoneIdx new (r.phones.set idx p2) 0).map Prod.fst
                = some q ∧ q.value = new
            cases hfx : findPhoneIdx new (r.phones.set idx p2) 0 with
            | none =>
                exfalso
                have hall := (findPhoneIdx_none_iff new _ 0).mp hfx
                have hmem : p2 ∈ r.phones.set idx p2 := by
                  have := @List.getElem?_set_self _ r.phones idx p2 hlt
                  exact List.getElem?_mem this
                exact hall p2 hmem (by rw [hp2])
            | some qj =>
                obtain ⟨q, j⟩ := qj
                obtain ⟨-, -, hqval, -⟩ :=
                  findPhoneIdx_some_spec new _ 0 q j hfx
                exact ⟨q, rfl, hqval⟩
          · rw [heq]
            show (findPhoneIdx old (r.phones.set idx p2) 0).map Prod.fst
                = none
            have : findPhoneIdx old (r.phones.set idx p2) 0 = none := by
              rw [findPhoneIdx_none_iff]
              intro q hq
              obtain ⟨k, hk⟩ := List.mem_iff_getElem?.mp hq
              by_cases hkidx : k = idx
              · subst hkidx
                rw [List.getElem?_set_self hlt] at hk
                cases hk
                rw [hp2]
                exact fun h => hne h
              · rw [List.getElem?_set_ne (Ne.symm hkidx)] at hk
                exact countP_value_one_unique old r.phones idx p hone
                  hget0 hvalp k hkidx q hk
            rw [this]
            rfl

/-- Witness for `editPhone_roundtrip`: `Bob` stores `1111111111`
exactly once and edits it to `2222222222`. -/
theorem editPhone_roundtrip_witness :
    ∃ p idx,
      bobRecord.getPhoneByNumber "1111111111" = some (p, idx)
      ∧ (bobRecord.editPhone "1111111111" "2222222222").1.phones
          = bobRecord.phones.set idx { p with value := "2222222222" }
      ∧ (bobRecord.editPhone "1111111111" "2222222222").1.phones.length
          = bobRecord.phones.length
      ∧ (∃ q, (bobRecord.editPhone "1111111111"
            "2222222222").1.findPhone "2222222222" = some q
          ∧ q.value = "2222222222")
      ∧ (bobRecord.editPhone "1111111111"
          "2222222222").1.findPhone "1111111111" = none :=
  editPhone_roundtrip bobRecord "1111111111" "2222222222" (by decide)
    (by decide) (by rfl)

theorem range'_shift (step : Nat) :
    ∀ (k a : Nat), List.range' a k step
      = (List.range' 0 k step).map (fun x => a + x) := by
  intro k
  induction k with
  | zero => intro a; rfl
  | succ k ih =>
      intro a
      rw [List.range'_succ, List.range'_succ, List.map_cons]
      rw [ih (a + step), ih (0 + step), List.map_map]
      refine congrArg₂ _ (by omega) ?_
      refine congrArg₂ _ ?_ rfl
      funext x
      simp only [Function.comp_apply]
      omega

theorem chunkList_flatten (s : Nat) (l : List Record) :
    (chunkList s l).flatten = l := by
  induction l using chunkList.induct s with
  | case1 => simp [chunkList]
  | case2 x xs ih =>
      simp only [chunkList, List.flatten_cons]
      rw [ih]
      rw [List.cons_append, List.take_append_drop]

theorem chunkList_mem_length (s : Nat) (hs : 1 ≤ s) (l : List Record) :
    ∀ c ∈ chunkList s l, 0 < c.length ∧ c.length ≤ s := by
  induction l using chunkList.induct s with
  | case1 => simp [chunkList]
  | case2 x xs ih =>
      simp only [chunkList, List.mem_cons]
      rintro c (rfl | hc)
      · constructor
        · simp
        · have := List.length_take (s - 1) xs
          simp only [List.length_cons, this]
          omega
      · exact ih c hc

theorem chunkList_dropLast_length (s : Nat) (hs : 1 ≤ s) (l : List Record) :
    ∀ c ∈ (chunkList s l).dropLast, c.length = s := by
  induction l using chunkList.induct s with
  | case1 => simp [chunkList]
  | case2 x xs ih =>
      simp only [chunkList]
      cases hrest : chunkList s (xs.drop (s - 1)) with
      | nil => simp
      | cons r rs =>
          rw [List.dropLast_cons_of_ne_nil (by simp)]
          have hne : xs.drop (s - 1) ≠ [] := by
            intro hnil
            rw [hnil] at hrest
            simp [chunkList] at hrest
          have hxs : s - 1 < xs.length := by
            by_contra hge
            exact hne (List.drop_eq_nil_of_le (by omega))
          intro c hc
          rcases List.mem_cons.mp hc with rfl | hc
          · have := List.length_take (s - 1) xs
            simp only [List.length_cons, this]
            omega
          · exact ih c (by rw [hrest]; exact hc)

theorem sliceLoop_eq_chunkList (s : Nat) (hs : 1 ≤ s) (vals : List Record) :
    (List.range' 0 ((vals.length + s - 1) / s) s).map
        (fun i => pySlice vals i (i + s))
      = chunkList s vals := by
  obtain ⟨t, rfl⟩ : ∃ t, s = t + 1 := ⟨s - 1, by omega⟩
  induction vals using chunkList.induct (t + 1) with
  | case1 =>
      rw [show (([] : List Record).length + (t + 1) - 1) / (t + 1) = 0 from
        Nat.div_eq_of_lt (by simp)]
      simp [chunkList]
  | case2 x xs ih =>
      rw [Nat.add_sub_cancel] at ih
      have hcount : ((x :: xs).length + (t + 1) - 1) / (t + 1)
          = xs.length / (t + 1) + 1 := by
        rw [show (x :: xs).length + (t + 1) - 1 = xs.length + (t + 1) by
          simp; omega]
        exact Nat.add_div_right xs.length (by omega)
      rw [hcount, List.range'_succ, List.map_cons]
      have hhead : pySlice (x :: xs) 0 (0 + (t + 1)) = x :: xs.take t := by
        unfold pySlice
        rw [List.drop_zero, Nat.zero_add, Nat.sub_zero, List.take_succ_cons]
      have htail : (List.range' (0 + (t + 1)) (xs.length / (t + 1))
            (t + 1)).map (fun i => pySlice (x :: xs) i (i + (t + 1)))
          = chunkList (t + 1) (xs.drop t) := by
        rw [range'_shift, List.map_map]
        have hfun : ((fun i => pySlice (x :: xs) i (i + (t + 1)))
              ∘ (fun i => 0 + (t + 1) + i))
            = fun i => pySlice (xs.drop t) i (i + (t + 1)) := by
          funext i
          simp only [Function.comp_apply]
          unfold pySlice
          rw [show 0 + (t + 1) + i = (t + 1) + i by omega]
          rw [← List.drop_drop, List.drop_succ_cons]
          refine congrArg₂ _ ?_ rfl
          omega
        rw [hfun]
        have hdiv : ((xs.drop t).length + (t + 1) - 1) / (t + 1)
            = xs.length / (t + 1) := by
          rw [List.length_drop]
          by_cases hxt : t ≤ xs.length
          · rw [show xs.length - t + (t + 1) - 1 = xs.length by omega]
          · rw [show xs.length - t = 0 by omega]
            rw [Nat.div_eq_of_lt (by omega), Nat.div_eq_of_lt (by omega)]
        rw [← hdiv]
        exact ih
      rw [hhead, htail]
      simp only [chunkList, Nat.add_sub_cancel]

theorem iterator_some_eq (n : Int) (hn : 1 ≤ n) (book : AddressBook) :
    book.iterator (some n) = chunkList n.toNat book.values := by
  have hzero : ¬ n = 0 := by omega
  have hs : 1 ≤ n.toNat := by omega
  unfold AddressBook.iterator
  simp only [if_neg hzero, if_pos (show (0:Int) < n by omega)]
  exact sliceLoop_eq_chunkList n.toNat hs book.values

/-- C3: for every chunk size `n ≥ 1`, `iterator` yields the records in
insertion order as successive non-overlapping slices — their
concatenation is exactly the value list of the book, every slice but the
last has length `n`, every slice is non-empty and at most `n` long —
a chunk size of `0` or an unset one behaves as chunk size `1`, and the
five-record example produces `[[A,B],[C,D],[E]]`. -/
theorem iterator_chunking (n : Int) (hn : 1 ≤ n) (book : AddressBook) :
    (book.iterator (some n)).flatten = book.values
    ∧ (∀ c ∈ (book.iterator (some n)).dropLast, c.length = n.toNat)
    ∧ (∀ c ∈ book.iterator (some n), 0 < c.length ∧ c.length ≤ n.toNat)
    ∧ book.iterator none = book.iterator (some 1)
    ∧ book.iterator (some 0) = book.iterator (some 1)
    ∧ ∀ (a b c d e : Record) (na nb nc nd ne : String),
        AddressBook.iterator [(na, a), (nb, b), (nc, c), (nd, d), (ne, e)]
          (some 2) = [[a, b], [c, d], [e]] := by
  have hs : 1 ≤ n.toNat := by omega
  rw [iterator_some_eq n hn book]
  refine ⟨chunkList_flatten _ _, chunkList_dropLast_length _ hs _,
    chunkList_mem_length _ hs _, rfl, rfl, ?_⟩
  intro a b c d e na nb nc nd ne
  rw [iterator_some_eq 2 (by omega)]
  simp [AddressBook.values, chunkList]

/-- Witness for `iterator_chunking` with chunk size 2 on a one-record
book. -/
theorem iterator_chunking_witness :
    (AddressBook.iterator [("Bob", bobRecord)] (some 2)).flatten
      = AddressBook.values [("Bob", bobRecord)] :=
  (iterator_chunking 2 (by decide) [("Bob", bobRecord)]).1

theorem isAsciiDigit_iff {c : Char} :
    isAsciiDigit c = true ↔ 48 ≤ c.toNat ∧ c.toNat ≤ 57 := by
  simp [isAsciiDigit]

theorem isPyDigit_of_ascii {c : Char} (h : isAsciiDigit c = true) :
    isPyDigit c = true := by
  simp [isPyDigit, h]

theorem isPyDigit_ascii_eq {c : Char} (h : c.toNat < 128) :
    isPyDigit c = isAsciiDigit c := by
  have h1 : (0x660 ≤ c.toNat && c.toNat ≤ 0x669) = false := by
    have : ¬ 0x660 ≤ c.toNat := by omega
    simp [this]
  simp [isPyDigit, h1]

theorem pyDigitVal_ascii {c : Char} (h : isAsciiDigit c = true) :
    pyDigitVal c = c.toNat - 48 := by
  simp [pyDigitVal, h]

theorem natOfDigits_one (c : Char) : natOfDigits [c] = pyDigitVal c := by
  simp [natOfDigits]

theorem natOfDigits_two (c1 c2 : Char) :
    natOfDigits [c1, c2] = 10 * pyDigitVal c1 + pyDigitVal c2 := by
  unfold natOfDigits
  simp only [List.foldl_cons, List.foldl_nil]
  omega

theorem natOfDigits_space (c : Char) : natOfDigits [' ', c] = pyDigitVal c := by
  unfold natOfDigits
  simp only [List.foldl_cons, List.foldl_nil]
  have h0 : pyDigitVal ' ' = 0 := by decide
  rw [h0]
  omega

theorem hyphenTok_sound {r0 r1 : List Char} (h : hyphenTok r0 = some r1) :
    r0 = '-' :: r1 := by
  cases r0 with
  | nil => cases h
  | cons c rest =>
      simp only [hyphenTok] at h
      by_cases hc : c = '-'
      · rw [if_pos hc] at h
        cases h
        rw [hc]
      · rw [if_neg hc] at h
        cases h

theorem dayTok_sound {l r : List Char} {v : Nat}
    (hA : ∀ c ∈ l, c.toNat < 128) (h : dayTok l = some (v, r)) :
    ∃ tl, l = tl ++ r ∧ dayStrOk tl ∧ natOfDigits tl = v := by
  cases l with
  | nil => cases h
  | cons c1 t =>
      cases t with
      | nil =>
          simp only [dayTok] at h
          by_cases hc : 49 ≤ c1.toNat ∧ c1.toNat ≤ 57
          · rw [if_pos hc] at h
            cases h
            refine ⟨[c1], rfl, Or.inl ⟨c1, rfl, ?_, ?_⟩, natOfDigits_one c1⟩
            · exact isAsciiDigit_iff.mpr ⟨by omega, by omega⟩
            · rw [pyDigitVal_ascii (isAsciiDigit_iff.mpr ⟨by omega, by omega⟩)]
              omega
          · rw [if_neg hc] at h
            cases h
      | cons c2 rest =>
          simp only [dayTok] at h
          by_cases hc : (c1.toNat = 51 ∧ (c2.toNat = 48 ∨ c2.toNat = 49))
              ∨ ((c1.toNat = 49 ∨ c1.toNat = 50) ∧ isPyDigit c2 = true)
              ∨ (c1.toNat = 48 ∧ 49 ≤ c2.toNat ∧ c2.toNat ≤ 57)
          · rw [if_pos hc] at h
            cases h
            have h2lt : c2.toNat < 128 := hA c2 (by simp)
            have hd1 : isAsciiDigit c1 = true := by
              rcases hc with ⟨h1, -⟩ | ⟨h1 | h1, -⟩ | ⟨h1, -⟩ <;>
                exact isAsciiDigit_iff.mpr (by omega)
            have hd2 : isAsciiDigit c2 = true := by
              rcases hc with ⟨-, h2 | h2⟩ | ⟨-, h2⟩ | ⟨-, h2, h3⟩
              · exact isAsciiDigit_iff.mpr (by omega)
              · exact isAsciiDigit_iff.mpr (by omega)
              · rw [isPyDigit_ascii_eq h2lt] at h2
                exact h2
              · exact isAsciiDigit_iff.mpr (by omega)
            have hb1 := isAsciiDigit_iff.mp hd1
            have hb2 := isAsciiDigit_iff.mp hd2
            refine ⟨[c1, c2], rfl,
              Or.inr (Or.inl ⟨c1, c2, rfl, hd1, hd2, ?_, ?_⟩),
              natOfDigits_two c1 c2⟩
            · rw [pyDigitVal_ascii hd1, pyDigitVal_ascii hd2]
              rcases hc with ⟨h1, h2 | h2⟩ | ⟨h1 | h1, -⟩ | ⟨h1, h2, h3⟩ <;> omega
            · rw [pyDigitVal_ascii hd1, pyDigitVal_ascii hd2]
              rcases hc with ⟨h1, h2 | h2⟩ | ⟨h1 | h1, -⟩ | ⟨h1, h2, h3⟩ <;> omega
          · rw [if_neg hc] at h
            by_cases hc1 : 49 ≤ c1.toNat ∧ c1.toNat ≤ 57
            · rw [if_pos hc1] at h
              cases h
              refine ⟨[c1], rfl, Or.inl ⟨c1, rfl, ?_, ?_⟩, natOfDigits_one c1⟩
              · exact isAsciiDigit_iff.mpr ⟨by omega, by omega⟩
              · rw [pyDigitVal_ascii (isAsciiDigit_iff.mpr ⟨by omega, by omega⟩)]
                omega
            · rw [if_neg hc1] at h
              by_cases hcs : c1.toNat = 32 ∧ 49 ≤ c2.toNat ∧ c2.toNat ≤ 57
              · rw [if_pos hcs] at h
                cases h
                have hsp : c1 = ' ' := by
                  have hofn := Char.ofNat_toNat c1
                  rw [hcs.1] at hofn
                  exact hofn.symm
                subst hsp
                have hd2 : isAsciiDigit c2 = true :=
                  isAsciiDigit_iff.mpr ⟨by omega, by omega⟩
                refine ⟨[' ', c2], rfl,
                  Or.inr (Or.inr ⟨c2, rfl, hd2, ?_⟩), natOfDigits_space c2⟩
                rw [pyDigitVal_ascii hd2]
                omega
              · rw [if_neg hcs] at h
                cases h

theorem monthTok_sound {l r : List Char} {v : Nat}
    (hA : ∀ c ∈ l, c.toNat < 128) (h : monthTok l = some (v, r)) :
    ∃ tl, l = tl ++ r ∧ monthStrOk tl ∧ natOfDigits tl = v := by
  cases l with
  | nil => cases h
  | cons c1 t =>
      cases t with
      | nil =>
          simp only [monthTok] at h
          by_cases hc : 49 ≤ c1.toNat ∧ c1.toNat ≤ 57
          · rw [if_pos hc] at h
            cases h
            refine ⟨[c1], rfl, Or.inl ⟨c1, rfl, ?_, ?_⟩, natOfDigits_one c1⟩
            · exact isAsciiDigit_iff.mpr ⟨by omega, by omega⟩
            · rw [pyDigitVal_ascii (isAsciiDigit_iff.mpr ⟨by omega, by omega⟩)]
              omega
          · rw [if_neg hc] at h
            cases h
      | cons c2 rest =>
          simp only [monthTok] at h
          by_cases hc : (c1.toNat = 49 ∧ (c2.toNat = 48 ∨ c2.toNat = 49
                ∨ c2.toNat = 50))
              ∨ (c1.toNat = 48 ∧ 49 ≤ c2.toNat ∧ c2.toNat ≤ 57)
          · rw [if_pos hc] at h
            cases h
            have hd1 : isAsciiDigit c1 = true := by
              rcases hc with ⟨h1, -⟩ | ⟨h1, -⟩ <;>
                exact isAsciiDigit_iff.mpr (by omega)
            have hd2 : isAsciiDigit c2 = true := by
              rcases hc with ⟨-, h2 | h2 | h2⟩ | ⟨-, h2, h3⟩ <;>
                exact isAsciiDigit_iff.mpr (by omega)
            have hb1 := isAsciiDigit_iff.mp hd1
            have hb2 := isAsciiDigit_iff.mp hd2
            refine ⟨[c1, c2], rfl,
              Or.inr ⟨c1, c2, rfl, hd1, hd2, ?_, ?_⟩, natOfDigits_two c1 c2⟩
            · rw [pyDigitVal_ascii hd1, pyDigitVal_ascii hd2]
              rcases hc with ⟨h1, h2 | h2 | h2⟩ | ⟨h1, h2, h3⟩ <;> omega
            · rw [pyDigitVal_ascii hd1, pyDigitVal_ascii hd2]
              rcases hc with ⟨h1, h2 | h2 | h2⟩ | ⟨h1, h2, h3⟩ <;> omega
          · rw [if_neg hc] at h
            by_cases hc1 : 49 ≤ c1.toNat ∧ c1.toNat ≤ 57
            · rw [if_pos hc1] at h
              cases h
              refine ⟨[c1], rfl, Or.inl ⟨c1, rfl, ?_, ?_⟩, natOfDigits_one c1⟩
              · exact isAsciiDigit_iff.mpr ⟨by omega, by omega⟩
              · rw [pyDigitVal_ascii (isAsciiDigit_iff.mpr ⟨by omega, by omega⟩)]
                omega
            · rw [if_neg hc1] at h
              cases h

theorem yearTok_sound {l r : List Char} {v : Nat}
    (hA : ∀ c ∈ l, c.toNat < 128) (h : yearTok l = some (v, r)) :
    ∃ yl, l = yl ++ r ∧ yl.length = 4
      ∧ (∀ c ∈ yl, isAsciiDigit c = true) ∧ natOfDigits yl = v := by
  cases l with
  | nil => exact Option.noConfusion h
  | cons c1 t1 =>
  cases t1 with
  | nil => exact Option.noConfusion h
  | cons c2 t2 =>
  cases t2 with
  | nil => exact Option.noConfusion h
  | cons c3 t3 =>
  cases t3 with
  | nil => exact Option.noConfusion h
  | cons c4 rest =>
  simp only [yearTok] at h
  by_cases hc : isPyDigit c1 = true ∧ isPyDigit c2 = true
      ∧ isPyDigit c3 = true ∧ isPyDigit c4 = true
  · rw [if_pos hc] at h
    obtain ⟨hv, hr⟩ : natOfDigits [c1, c2, c3, c4] = v ∧ rest = r := by
      cases h; exact ⟨rfl, rfl⟩
    subst hr
    refine ⟨[c1, c2, c3, c4], rfl, rfl, ?_, hv⟩
    intro c hcmem
    simp only [List.mem_cons, List.not_mem_nil, or_false] at hcmem
    have hdig : isPyDigit c = true := by
      rcases hcmem with rfl | rfl | rfl | rfl
      · exact hc.1
      · exact hc.2.1
      · exact hc.2.2.1
      · exact hc.2.2.2
    have hlt : c.toNat < 128 := by
      apply hA
      simp only [List.mem_cons]
      tauto
    rw [← isPyDigit_ascii_eq hlt]
    exact hdig
  · rw [if_neg hc] at h
    exact Option.noConfusion h

theorem dayTok_complete {tl rest : List Char} (h : dayStrOk tl) :
    dayTok (tl ++ '-' :: rest) = some (natOfDigits tl, '-' :: rest) := by
  have hhy : ('-').toNat = 45 := rfl
  have hpy : isPyDigit '-' = false := by decide
  rcases h with ⟨c, rfl, hd, hv⟩ | ⟨c1, c2, rfl, hd1, hd2, hv1, hv31⟩
    | ⟨c, rfl, hd, hv⟩
  · have hb := isAsciiDigit_iff.mp hd
    rw [pyDigitVal_ascii hd] at hv
    show dayTok (c :: '-' :: rest) = _
    simp only [dayTok]
    rw [if_neg (by
      rintro (⟨-, h2 | h2⟩ | ⟨-, h2⟩ | ⟨-, h2, h3⟩)
      · rw [hhy] at h2; omega
      · rw [hhy] at h2; omega
      · rw [hpy] at h2; cases h2
      · rw [hhy] at h2; omega)]
    rw [if_pos ⟨by omega, by omega⟩, natOfDigits_one]
  · have hb1 := isAsciiDigit_iff.mp hd1
    have hb2 := isAsciiDigit_iff.mp hd2
    rw [pyDigitVal_ascii hd1, pyDigitVal_ascii hd2] at hv1 hv31
    have hpy2 : isPyDigit c2 = true := isPyDigit_of_ascii hd2
    show dayTok (c1 :: c2 :: ('-' :: rest)) = _
    simp only [dayTok]
    rw [if_pos (by
      by_cases h51 : c1.toNat = 51
      · exact Or.inl ⟨h51, by omega⟩
      · by_cases h49 : c1.toNat = 49
        · exact Or.inr (Or.inl ⟨Or.inl h49, hpy2⟩)
        · by_cases h50 : c1.toNat = 50
          · exact Or.inr (Or.inl ⟨Or.inr h50, hpy2⟩)
          · exact Or.inr (Or.inr ⟨by omega, by omega, by omega⟩))]
    rw [natOfDigits_two, pyDigitVal_ascii hd1, pyDigitVal_ascii hd2]
  · have hb := isAsciiDigit_iff.mp hd
    rw [pyDigitVal_ascii hd] at hv
    show dayTok (' ' :: c :: ('-' :: rest)) = _
    simp only [dayTok]
    rw [if_neg (by
      rintro (⟨h1, -⟩ | ⟨h1 | h1, -⟩ | ⟨h1, -⟩) <;> exact absurd h1 (by decide))]
    rw [if_neg (by decide)]
    rw [if_pos ⟨by decide, by omega, by omega⟩]
    rw [natOfDigits_space, pyDigitVal_ascii hd]

theorem monthTok_complete {tl rest : List Char} (h : monthStrOk tl) :
    monthTok (tl ++ '-' :: rest) = some (natOfDigits tl, '-' :: rest) := by
  have hhy : ('-').toNat = 45 := rfl
  rcases h with ⟨c, rfl, hd, hv⟩ | ⟨c1, c2, rfl, hd1, hd2, hv1, hv12⟩
  · have hb := isAsciiDigit_iff.mp hd
    rw [pyDigitVal_ascii hd] at hv
    show monthTok (c :: '-' :: rest) = _
    simp only [monthTok]
    rw [if_neg (by
      rintro (⟨-, h2 | h2 | h2⟩ | ⟨-, h2, h3⟩) <;> (rw [hhy] at h2; omega))]
    rw [if_pos ⟨by omega, by omega⟩, natOfDigits_one]
  · have hb1 := isAsciiDigit_iff.mp hd1
    have hb2 := isAsciiDigit_iff.mp hd2
    rw [pyDigitVal_ascii hd1, pyDigitVal_ascii hd2] at hv1 hv12
    show monthTok (c1 :: c2 :: ('-' :: rest)) = _
    simp only [monthTok]
    rw [if_pos (by omega)]
    rw [natOfDigits_two, pyDigitVal_ascii hd1, pyDigitVal_ascii hd2]

theorem yearTok_complete {yl rest : List Char} (h4 : yl.length = 4)
    (hd : ∀ c ∈ yl, isAsciiDigit c = true) :
    yearTok (yl ++ rest) = some (natOfDigits yl, rest) := by
  match yl, h4 with
  | [c1, c2, c3, c4], _ => ?_
  show yearTok (c1 :: c2 :: c3 :: c4 :: rest) = _
  simp only [yearTok]
  rw [if_pos ⟨isPyDigit_of_ascii (hd c1 (by simp)),
    isPyDigit_of_ascii (hd c2 (by simp)),
    isPyDigit_of_ascii (hd c3 (by simp)),
    isPyDigit_of_ascii (hd c4 (by simp))⟩]

theorem yearTok_complete_nil {yl : List Char} (h4 : yl.length = 4)
    (hd : ∀ c ∈ yl, isAsciiDigit c = true) :
    yearTok yl = some (natOfDigits yl, []) := by
  have h := @yearTok_complete yl [] h4 hd
  rwa [List.append_nil] at h

theorem strptimeDMY_complete {dl ml yl : List Char}
    (hd : dayStrOk dl) (hm : monthStrOk ml) (hy4 : yl.length = 4)
    (hyd : ∀ c ∈ yl, isAsciiDigit c = true) :
    strptimeDMY (dl ++ '-' :: (ml ++ '-' :: yl))
      = some (natOfDigits dl, natOfDigits ml, natOfDigits yl) := by
  unfold strptimeDMY
  rw [dayTok_complete hd]
  rw [Option.some_bind]
  show (hyphenTok ('-' :: (ml ++ '-' :: yl))).bind _ = _
  rw [show hyphenTok ('-' :: (ml ++ '-' :: yl)) = some (ml ++ '-' :: yl) by
    simp [hyphenTok]]
  rw [Option.some_bind]
  rw [monthTok_complete hm]
  rw [Option.some_bind]
  show (hyphenTok ('-' :: yl)).bind _ = _
  rw [show hyphenTok ('-' :: yl) = some yl by simp [hyphenTok]]
  rw [Option.some_bind]
  rw [yearTok_complete_nil hy4 hyd]
  rw [Option.some_bind]
  simp

theorem strptimeDMY_sound {l : List Char} {d m y : Nat}
    (hA : ∀ c ∈ l, c.toNat < 128) (h : strptimeDMY l = some (d, m, y)) :
    ∃ dl ml yl, l = dl ++ '-' :: (ml ++ '-' :: yl)
      ∧ dayStrOk dl ∧ monthStrOk ml
      ∧ yl.length = 4 ∧ (∀ c ∈ yl, isAsciiDigit c = true)
      ∧ natOfDigits dl = d ∧ natOfDigits ml = m ∧ natOfDigits yl = y := by
  unfold strptimeDMY at h
  rw [Option.bind_eq_some] at h
  obtain ⟨⟨d0, r0⟩, hdt, h⟩ := h
  rw [Option.bind_eq_some] at h
  obtain ⟨r1, hh1, h⟩ := h
  rw [Option.bind_eq_some] at h
  obtain ⟨⟨m0, r2⟩, hmt, h⟩ := h
  rw [Option.bind_eq_some] at h
  obtain ⟨r3, hh2, h⟩ := h
  rw [Option.bind_eq_some] at h
  obtain ⟨⟨y0, r4⟩, hyt, hfin⟩ := h
  by_cases hr4 : r4 = []
  · subst hr4
    rw [if_pos rfl] at hfin
    obtain ⟨hd0, hm0, hy0⟩ : d0 = d ∧ m0 = m ∧ y0 = y := by
      cases hfin; exact ⟨rfl, rfl, rfl⟩
    obtain ⟨dl, hl0, hday, hvd⟩ := dayTok_sound hA hdt
    have hr0 : r0 = '-' :: r1 := hyphenTok_sound hh1
    have hA1 : ∀ c ∈ r1, c.toNat < 128 := by
      intro c hc
      exact hA c (by rw [hl0, hr0]; simp [hc])
    obtain ⟨ml, hl1, hmon, hvm⟩ := monthTok_sound hA1 hmt
    have hr2 : r2 = '-' :: r3 := hyphenTok_sound hh2
    have hA3 : ∀ c ∈ r3, c.toNat < 128 := by
      intro c hc
      exact hA1 c (by rw [hl1, hr2]; simp [hc])
    obtain ⟨yl, hl3, hy4, hyd, hvy⟩ := yearTok_sound hA3 hyt
    rw [List.append_nil] at hl3
    refine ⟨dl, ml, yl, ?_, hday, hmon, hy4, hyd,
      hd0 ▸ hvd, hm0 ▸ hvm, hy0 ▸ hvy⟩
    rw [hl0, hr0, hl1, hr2, hl3]
  · rw [if_neg hr4] at hfin
    cases hfin

theorem parseBirthdayStr_eq_some {s : String} {d m y : Nat}
    (hp : strptimeDMY s.data = some (d, m, y)) :
    parseBirthdayStr s
      = if dateOk y m d then .ok ⟨y, m, d⟩
        else .error "Client birthday or date format is incorrect" := by
  unfold parseBirthdayStr
  rw [hp]

theorem parseBirthdayStr_eq_none {s : String}
    (hp : strptimeDMY s.data = none) :
    parseBirthdayStr s
      = .error "Client birthday or date format is incorrect" := by
  unfold parseBirthdayStr
  rw [hp]

/-- C7 amended, stated for ASCII strings: constructing a `Birthday`
succeeds exactly for hyphen-separated day-month-year strings whose day
has one or two digits or is a space followed by one nonzero digit (the
space-padded form of the `%d` pattern), whose month has one or two
digits (zero-padding optional, values in range) and whose year has
exactly four digits, denoting a real calendar date acceptable to
`datetime` (`strptime` is lenient about zero-padding, so `5-3-1990`
and ` 5-03-1990` are accepted; malformed strings and impossible dates
such as `31-02-2021` fail). -/
theorem birthday_validation (s : String)
    (hA : ∀ c ∈ s.data, c.toNat < 128) :
    (parseBirthdayStr s).isOk = true ↔ specBirthdayAscii s := by
  constructor
  · intro h
    cases hp : strptimeDMY s.data with
    | none =>
        rw [parseBirthdayStr_eq_none hp] at h
        simp [Except.isOk, Except.toBool] at h
    | some dmy =>
        obtain ⟨d, m, y⟩ := dmy
        rw [parseBirthdayStr_eq_some hp] at h
        by_cases hok : dateOk y m d
        · obtain ⟨dl, ml, yl, hdec, hday, hmon, hy4, hyd, hvd, hvm, hvy⟩ :=
            strptimeDMY_sound hA hp
          exact ⟨dl, ml, yl, hdec, hday, hmon, hy4, hyd, by
            rw [hvd, hvm, hvy]; exact hok⟩
        · rw [if_neg hok] at h
          simp [Except.isOk, Except.toBool] at h
  · rintro ⟨dl, ml, yl, hdec, hday, hmon, hy4, hyd, hok⟩
    have hp : strptimeDMY s.data
        = some (natOfDigits dl, natOfDigits ml, natOfDigits yl) := by
      rw [hdec]
      exact strptimeDMY_complete hday hmon hy4 hyd
    rw [parseBirthdayStr_eq_some hp, if_pos hok]
    rfl

/-- Witness for `birthday_validation`: the valid dates `05-03-1990`
and the space-padded ` 5-03-1990` both parse, hence both admit the
amended-format decomposition. -/
theorem birthday_validation_witness :
    specBirthdayAscii "05-03-1990" ∧ specBirthdayAscii " 5-03-1990" :=
  ⟨(birthday_validation "05-03-1990" (by decide)).mp (by rfl),
   (birthday_validation " 5-03-1990" (by decide)).mp (by rfl)⟩

/-- C7 counterexample: `5-3-1990` is accepted by the `Birthday` setter
although it has no two-digit day and no two-digit month — indeed the
strict `DD-MM-YYYY` decomposition of the claim forces a string of ten
characters, and this one has eight. -/
theorem birthday_one_digit_accepted :
    (parseBirthdayStr "5-3-1990").isOk = true
    ∧ ¬ specBirthdayStrict "5-3-1990" := by
  refine ⟨rfl, ?_⟩
  rintro ⟨dl, ml, yl, hdec, h2, h3, h4, -⟩
  have hlen : ("5-3-1990".data).length = 8 := rfl
  rw [hdec] at hlen
  simp [List.length_append, h2, h3, h4] at hlen

end ABook
